import Mathlib

/-!
Shallow embedding of `ehuss/cargo-new-release` (Rust): the commit-log
pull-request extraction logic shared by the two tools, the version-bump
routine, the subprocess wrappers, the milestone create-or-lookup logic and
the nightly-date computation.  Strings are modelled as `List Char` where
character-level processing is involved; Rust's Unicode whitespace and
byte-indexed ranges are modelled on the ASCII fragment (all inputs the
programs process — git log output, TOML manifests, markdown changelogs —
are treated at the character level; for the ASCII delimiters involved,
byte indices and character indices coincide).
-/

namespace CargoRel

/-- Whitespace predicate used by Rust's `trim`, `split_whitespace` and
`char::is_whitespace`, modelled on the ASCII fragment. -/
def isWs (c : Char) : Bool :=
  c = ' ' || c = '\t' || c = '\n' || c = '\r'

/-- Model of Rust `str::trim_start`. -/
def trimL (cs : List Char) : List Char := cs.dropWhile isWs

/-- Model of Rust `str::trim_end`. -/
def trimR (cs : List Char) : List Char := (cs.reverse.dropWhile isWs).reverse

/-- Model of Rust `str::trim`. -/
def trimC (cs : List Char) : List Char := trimR (trimL cs)

/-- Tests `commit.trim().is_empty()` (and `line.trim().is_empty()`). -/
def isBlank (cs : List Char) : Bool := (trimC cs).isEmpty

/-- Splits a character list at every occurrence of `sep`, keeping empty
pieces (the semantics of Rust `str::split(sep)` / `String::splitOn`). -/
def splitOnChar (sep : Char) : List Char → List (List Char)
  | [] => [[]]
  | c :: rest =>
    match splitOnChar sep rest with
    | [] => [[]]
    | h :: t => if c = sep then [] :: h :: t else (c :: h) :: t

/-- Model of Rust `str::lines`: split on `'\n'`, drop one trailing empty
piece, and strip one trailing `'\r'` from each line. -/
def rustLines (cs : List Char) : List (List Char) :=
  let parts := splitOnChar '\n' cs
  let parts := if parts.getLast? = some [] then parts.dropLast else parts
  parts.map (fun l => if l.getLast? = some '\r' then l.dropLast else l)

/-- Joins pieces with `'\n'`, the inverse of `splitOnChar '\n'`. -/
def joinNl (ls : List (List Char)) : List Char := List.intercalate ['\n'] ls

/-- Tests whether a line begins with the literal `"commit "`, the
multiline-anchored delimiter of the regex `(?m)^commit `. -/
def isCommitHeader (l : List Char) : Bool := l.take 7 = "commit ".toList

/-- Groups the lines of a log into the piece before the first `commit `
header and one group per header, with the matched `"commit "` literal
removed from each header line (what `Regex::split` removes). -/
def groupCommits : List (List Char) → List (List Char) × List (List (List Char))
  | [] => ([], [])
  | l :: ls =>
    let p := groupCommits ls
    if isCommitHeader l then ([], ((l.drop 7) :: p.1) :: p.2)
    else (l :: p.1, p.2)

/-- Model of `commit_re.split(&log)` for `commit_re = (?m)^commit ` in
`lib.rs` line 81 and `main.rs` line 346.  The regex split leaves the
newline that precedes each match at the end of the previous piece; this
model joins lines back with `'\n'` and so drops that final newline from
each piece, which is observationally equal downstream: every piece is
consumed only through `trim`, `lines` and `split_whitespace`, all of which
ignore a trailing newline. -/
def splitCommits (cs : List Char) : List (List Char) :=
  let g := groupCommits (splitOnChar '\n' cs)
  joinNl g.1 :: g.2.map joinNl

/-- Model of Rust `str::split_whitespace` (accumulator-based). -/
def tokensAux : List Char → List Char → List (List Char)
  | [], acc => if acc.isEmpty then [] else [acc.reverse]
  | c :: rest, acc =>
    if isWs c then
      if acc.isEmpty then tokensAux rest [] else acc.reverse :: tokensAux rest []
    else tokensAux rest (c :: acc)

/-- Model of Rust `str::split_whitespace`: maximal runs of non-whitespace. -/
def tokens (cs : List Char) : List (List Char) := tokensAux cs []

/-- Message lines of a commit block (`lib.rs` lines 89-92, duplicated at
`main.rs` lines 353-356): the block's lines that are not blank after
trimming and begin with a literal space, each trimmed. -/
def messageLines (cs : List Char) : List (List Char) :=
  ((rustLines cs).filter (fun l => !(isBlank l) && (l.head? == some ' '))).map trimC

/-- Attempts to match the literal `pre` at the head of `cs` followed by at
least one ASCII digit, returning the maximal (greedy) digit run. -/
def prefixDigits (pre cs : List Char) : Option (List Char) :=
  if cs.take pre.length = pre then
    let ds := (cs.drop pre.length).takeWhile Char.isDigit
    if ds.isEmpty then none else some ds
  else none

/-- Characters of the literal `"Auto merge of #"`. -/
def autoPre : List Char := "Auto merge of #".toList

/-- Characters of the literal `"Merge pull request #"`. -/
def mprPre : List Char := "Merge pull request #".toList

/-- First alternation branch of `merge_re`
(`(?:Auto merge of|Merge pull request) #([0-9]+)`) anchored at the head of
`cs`; the inner alternation tries `Auto merge of` first. -/
def branch1At (cs : List Char) : Option (List Char) :=
  match prefixDigits autoPre cs with
  | some ds => some ds
  | none => prefixDigits mprPre cs

/-- Second alternation branch of `merge_re` (`\(#([0-9]+)\)$`) anchored at
the head of `cs`: the whole remaining text must be `(#` followed by digits
followed by a final `)` (the `$` anchor; the first message line contains
no newline, so `$` means end of the text). -/
def branch2At (cs : List Char) : Option (List Char) :=
  match cs with
  | c1 :: c2 :: rest =>
    if c1 = '(' ∧ c2 = '#' then
      let ds := rest.takeWhile Char.isDigit
      if ds.isEmpty then none
      else if rest.drop ds.length = [')'] then some ds else none
    else none
  | _ => none

/-- Which branch of `merge_re` produced the capture: group 1 (the
`#`-number convention) or group 2 (the trailing `(#number)` convention). -/
inductive MergeCap where
  | auto (ds : List Char)
  | tail (ds : List Char)
deriving DecidableEq

/-- Model of `merge_re.captures(first)` for
`merge_re = (?:Auto merge of|Merge pull request) #([0-9]+)|\(#([0-9]+)\)$`
(`lib.rs` line 83) under the regex crate's leftmost-first semantics: scan
start positions left to right, preferring the first alternation branch at
each position. -/
def findMerge : List Char → Option MergeCap
  | [] => none
  | c :: rest =>
    match branch1At (c :: rest) with
    | some ds => some (MergeCap.auto ds)
    | none =>
      match branch2At (c :: rest) with
      | some ds => some (MergeCap.tail ds)
      | none => findMerge rest

/-- Numeric value of an ASCII digit. -/
def digitVal (c : Char) : Nat := c.toNat - '0'.toNat

/-- Value of a digit run, as parsed by Rust `str::parse` on digits. -/
def digitsToNat (ds : List Char) : Nat :=
  ds.foldl (fun a c => 10 * a + digitVal c) 0

/-- URL built at `lib.rs` line 118 and `main.rs` line 367: a fixed base
templated with the pull-request number; pure string formatting, no
network access. -/
def prUrl (n : Nat) : String :=
  "https://github.com/rust-lang/cargo/pull/" ++ toString n

/-- Failure of the per-commit parsing logic.  `panicHash` is the
`.expect("hash")` panic, `panicNoFirst` the `.expect("auto")` panic on a
block with no message lines, `unmatched` the report for a first line that
matches neither merge convention (carrying the unmatched line and the
commit hash), and `panicNum` the `.expect` panic on a digit run that
overflows `u32`. -/
inductive ParseFail where
  | panicHash
  | panicNoFirst (hash : List Char)
  | unmatched (first hash : List Char)
  | panicNum (ds : List Char)
deriving DecidableEq

/-- Outcome of `commits_in_log`'s per-block closure (`lib.rs` lines
87-120): a record, a skip (the `eprintln!` diagnostic carrying the
unmatched first line and the commit hash, then `return None`), or a
panic. -/
inductive BlockOut where
  | ok (r : Nat × String × String)
  | skip (first hash : List Char)
  | panic (p : ParseFail)
deriving DecidableEq

/-- Per-block logic of `commits_in_log` (`lib.rs` lines 87-120): take the
hash (first whitespace token), the first message line, match `merge_re`;
on the group-1 branch the description is the next message line (or empty),
on the group-2 branch it is the first line with the trailing `(#digits)`
fragment removed and right-trimmed (the `replace_range` removes the byte
range from two before the digit capture through the closing parenthesis,
which is exactly the trailing `(#`, digits, `)` fragment). -/
def parseBlock (cs : List Char) : BlockOut :=
  match (tokens cs).head? with
  | none => BlockOut.panic ParseFail.panicHash
  | some hash =>
    match (messageLines cs).head? with
    | none => BlockOut.panic (ParseFail.panicNoFirst hash)
    | some first =>
      match findMerge first with
      | none => BlockOut.skip first hash
      | some (MergeCap.auto ds) =>
        if digitsToNat ds < 2 ^ 32 then
          BlockOut.ok (digitsToNat ds, prUrl (digitsToNat ds),
            String.mk (((messageLines cs).drop 1).headD []))
        else BlockOut.panic (ParseFail.panicNum ds)
      | some (MergeCap.tail ds) =>
        if digitsToNat ds < 2 ^ 32 then
          BlockOut.ok (digitsToNat ds, prUrl (digitsToNat ds),
            String.mk (trimR (first.take (first.length - (ds.length + 3)))))
        else BlockOut.panic (ParseFail.panicNum ds)

/-- Commit blocks kept by the `.filter(|commit| !commit.trim().is_empty())`
step shared by `lib.rs` line 86 and `main.rs` line 350. -/
def keptBlocks (cs : List Char) : List (List Char) :=
  (splitCommits cs).filter (fun b => !(isBlank b))

/-- Folds the per-block outcomes of `commits_in_log`: skips drop the
block (the `filter_map` returning `None`), panics abort the whole call. -/
def commitsGo : List (List Char) → Except ParseFail (List (Nat × String × String))
  | [] => Except.ok []
  | b :: bs =>
    match parseBlock b with
    | BlockOut.ok r => (commitsGo bs).map (fun rs => r :: rs)
    | BlockOut.skip _ _ => commitsGo bs
    | BlockOut.panic p => Except.error p

/-- Model of `commits_in_log` (`lib.rs` lines 80-122).  A `.error` value
models a panic of the Rust function; `.ok` carries the returned vector of
`(pr_num, pr_url, pr_description)` records. -/
def commits_in_log (log : String) : Except ParseFail (List (Nat × String × String)) :=
  commitsGo (keptBlocks log.toList)

/-- Model of `auto_merge_re.captures(first)` for
`auto_merge_re = Auto merge of #([0-9]+)` (`main.rs` line 347): leftmost
occurrence of the literal followed by a greedy digit run. -/
def findAuto : List Char → Option (List Char)
  | [] => none
  | c :: rest =>
    match prefixDigits autoPre (c :: rest) with
    | some ds => some ds
    | none => findAuto rest

/-- Per-block logic of `find_prs` (`main.rs` lines 351-369): same hash and
message-line extraction as `commits_in_log`, but the first message line is
matched only against `Auto merge of #([0-9]+)`, and a mismatch is a hard
error (carrying the unmatched line and the commit hash) rather than a
skip. -/
def findPrsBlock (cs : List Char) : Except ParseFail (Nat × String × String) :=
  match (tokens cs).head? with
  | none => Except.error ParseFail.panicHash
  | some hash =>
    match (messageLines cs).head? with
    | none => Except.error (ParseFail.panicNoFirst hash)
    | some first =>
      match findAuto first with
      | none => Except.error (ParseFail.unmatched first hash)
      | some ds =>
        if digitsToNat ds < 2 ^ 32 then
          Except.ok (digitsToNat ds, prUrl (digitsToNat ds),
            String.mk (((messageLines cs).drop 1).headD []))
        else Except.error (ParseFail.panicNum ds)

/-- Folds the per-block outcomes of `find_prs`'s extraction: the
`collect::<Result<Vec<_>>>` short-circuits at the first failing block. -/
def findPrsGo : List (List Char) → Except ParseFail (List (Nat × String × String))
  | [] => Except.ok []
  | b :: bs =>
    match findPrsBlock b with
    | Except.ok r => (findPrsGo bs).map (fun rs => r :: rs)
    | Except.error e => Except.error e

/-- Extraction step of `find_prs` (`main.rs` lines 346-371), before the
deduplication partition.  The `git log` invocation's output is passed as
the `log` argument. -/
def findPrsExtract (log : String) : Except ParseFail (List (Nat × String × String)) :=
  findPrsGo (keptBlocks log.toList)

/-- Model of Rust `str::find(pattern)`: index of the first occurrence of
`pat` in the text (character index; byte index in Rust, which coincides on
the ASCII fragment this program manipulates). -/
def findSub (pat : List Char) : List Char → Option Nat
  | [] => if pat.isEmpty then some 0 else none
  | c :: rest =>
    if (c :: rest).take pat.length = pat then some 0
    else (findSub pat rest).map (fun n => n + 1)

/-- PR-reference marker `format!("[#{}]", pr)` looked up in the changelog
text (`main.rs` line 375). -/
def marker (n : Nat) : String := "[#" ++ toString n ++ "]"

/-- Model of Rust `str::contains`. -/
def listContains (pat cs : List Char) : Bool := (findSub pat cs).isSome

/-- Deduplication partition of `find_prs` (`main.rs` lines 373-375): the
records whose marker `[#N]` already occurs in the changelog text first
(the `dupe` set, each reported as skipped), the rest second (the `new`
set, returned). -/
def dedupPartition (changelog : List Char) (commits : List (Nat × String × String)) :
    List (Nat × String × String) × List (Nat × String × String) :=
  commits.partition (fun r => listContains (marker r.1).toList changelog)

/-- Model of `find_prs` (`main.rs` lines 343-380): extract the records
from the log text, then return the ones whose marker is not already in
the changelog text (the `dupe` half is only reported on stderr). -/
def find_prs (changelog log : String) : Except ParseFail (List (Nat × String × String)) :=
  (findPrsExtract log).map (fun commits => (dedupPartition changelog.toList commits).2)

/-- Failure of `bump_version_toml`: the `.expect("version")`,
`.expect("version end")` and `.expect("valid version")` panics and the
`assert_eq!(version.major, 0)` assertion. -/
inductive BumpFail where
  | panicFind
  | panicEndQuote
  | panicParse
  | panicMajor (major : Nat)
deriving DecidableEq

/-- Characters of the marker literal located in the manifest
(`version = ` followed by a double quote, 11 characters). -/
def versionMarker : List Char := "version = \"".toList

/-- Strict numeric identifier of the `semver` crate: nonempty digits, no
leading zero (except `0` itself), fitting in `u64`. -/
def parseNumStrict (cs : List Char) : Option Nat :=
  if cs.isEmpty then none
  else if !(cs.all Char.isDigit) then none
  else if cs.length > 1 ∧ cs.head? = some '0' then none
  else if digitsToNat cs < 2 ^ 64 then some (digitsToNat cs) else none

/-- Model of `semver::Version::parse` restricted to the plain
`major.minor.patch` form (pre-release and build-metadata suffixes, which
this repository's manifests never carry, are out of the modelled scope). -/
def parseSemver (cs : List Char) : Option (Nat × Nat × Nat) :=
  match splitOnChar '.' cs with
  | [a, b, c] =>
    match parseNumStrict a, parseNumStrict b, parseNumStrict c with
    | some x, some y, some z => some (x, y, z)
    | _, _, _ => none
  | _ => none

/-- Model of `bump_version_toml` (`main.rs` lines 140-155) on the manifest
text (the file read/write is passed in and out as the text): locate the
first `version = "` marker, take the field up to the closing quote, parse
it, assert the major component is `0`, and splice `0.(minor+1).0` over the
old field.  Returns the rewritten manifest and the next version's
rendering (`Version::to_string` of `Version::new(0, minor+1, 0)`). -/
def bump_version_toml (toml : String) : Except BumpFail (String × String) :=
  let cs := toml.toList
  match findSub versionMarker cs with
  | none => Except.error BumpFail.panicFind
  | some i =>
    let start := i + 11
    let rest := cs.drop start
    match findSub ['"'] rest with
    | none => Except.error BumpFail.panicEndQuote
    | some len =>
      match parseSemver (rest.take len) with
      | none => Except.error BumpFail.panicParse
      | some v =>
        if v.1 = 0 then
          let next := "0." ++ toString (v.2.1 + 1) ++ ".0"
          Except.ok
            (String.mk (cs.take start ++ next.toList ++ cs.drop (start + len)), next)
        else Except.error (BumpFail.panicMajor v.1)

/-- Outcome of running an external process: a spawn failure, or an exit
with an optional status code (`None` models termination by signal, where
`ExitStatus::code()` is `None`). -/
inductive ProcOut where
  | spawnFail (e : String)
  | exited (code : Option Int)
deriving DecidableEq

/-- Model of `display_args` (`lib.rs` lines 46-53): the arguments joined
with single spaces. -/
def display_args (args : List String) : String := String.intercalate " " args

/-- Rendering of the `{:?}` debug formatting of an `ExitStatus` in the
error messages (the exact platform-dependent text is abstracted; only
its presence matters). -/
def codeRepr (code : Option Int) : String :=
  match code with
  | some n => "ExitStatus(" ++ toString n ++ ")"
  | none => "Signal"

/-- Model of `run_success` (`lib.rs` lines 55-76, duplicated at `main.rs`
lines 60-81): a spawn failure is an error naming the program; an exit
status other than `0` or `1` is an error naming the program and its
arguments; exit status `0` yields `Ok(true)` and exit status `1` yields
`Ok(false)`. -/
def run_success (prog : String) (args : List String) (r : ProcOut) : Except String Bool :=
  match r with
  | ProcOut.spawnFail e => Except.error ("failed to spawn `" ++ prog ++ "`: " ++ e)
  | ProcOut.exited code =>
    if code ≠ some 0 ∧ code ≠ some 1 then
      Except.error ("failed to run `" ++ prog ++ " " ++ display_args args ++
        "`: exit status " ++ codeRepr code)
    else Except.ok (code == some 0)

/-- Model of `run_stdout` (`lib.rs` lines 21-44): a spawn failure is an
error naming the program; any unsuccessful exit status (not `0`) is an
error naming the program and its arguments; on success the captured
standard output is returned trimmed. -/
def run_stdout (prog : String) (args : List String) (r : ProcOut) (out : String) :
    Except String String :=
  match r with
  | ProcOut.spawnFail e => Except.error ("failed to spawn `" ++ prog ++ "`: " ++ e)
  | ProcOut.exited code =>
    if code == some 0 then Except.ok (String.mk (trimC out.toList))
    else
      Except.error ("failed to run `" ++ prog ++ " " ++ display_args args ++
        "`: exit status " ++ codeRepr code)

/-- Outcome of the milestone-creation POST (`bin/milestone.rs` lines
152-158): a success carrying the created milestone's number (the
response body's `number` field), an HTTP error status, or a transport
error. -/
inductive CreateOut where
  | ok (number : Int)
  | status (code : Nat)
  | transport (e : String)
deriving DecidableEq

/-- Model of `get_milestone_num` (`bin/milestone.rs` lines 149-184) with
the two remote interactions passed in: the create call's outcome and the
listing returned by the `GET milestones?state=all&per_page=100` fallback,
as `(title, number)` pairs (entries are assumed well-formed, matching the
`as_i64().unwrap()` expectation of the code).  A `422` conflict on create
falls back to a linear scan of the listing for the exact title; any other
create failure propagates. -/
def get_milestone_num (version : String) (create : CreateOut)
    (listing : List (String × Int)) : Except String Int :=
  match create with
  | CreateOut.ok n => Except.ok n
  | CreateOut.status code =>
    if code = 422 then
      match listing.find? (fun m => m.1 == version) with
      | some m => Except.ok m.2
      | none => Except.error ("could not find " ++ version)
    else Except.error ("status " ++ toString code)
  | CreateOut.transport e => Except.error e

/-- Julian day number of 2015-05-15, the 1.0.0 release date
(`time::date!(2015 - 05 - 15).julian_day()`). -/
def firstJd : Int := 2457158

/-- Civil (proleptic Gregorian) date of a Julian day number, via the
Richards integer algorithm; models `time::Date::from_julian_day` on the
dates this tool computes. -/
def fromJulianDay (jd : Int) : Int × Nat × Nat :=
  let f := jd + 1401 + (((4 * jd + 274277) / 146097) * 3) / 4 - 38
  let e := 4 * f + 3
  let g := (e % 1461) / 4
  let h := 5 * g + 2
  let d := (h % 153) / 5 + 1
  let m := ((h / 153 + 2) % 12) + 1
  let y := e / 1461 - 4716 + (12 + 2 - m) / 12
  (y, m.toNat, d.toNat)

/-- Zero-pads a number to two digits (the `%m` / `%d` format specifiers). -/
def pad2 (n : Nat) : String := if n < 10 then "0" ++ toString n else toString n

/-- Zero-pads a number to four digits (the `%Y` format specifier on the
years this tool produces). -/
def pad4 (n : Nat) : String :=
  if n < 10 then "000" ++ toString n
  else if n < 100 then "00" ++ toString n
  else if n < 1000 then "0" ++ toString n
  else toString n

/-- Formatting `%Y-%m-%d` of a civil date. -/
def formatYmd (d : Int × Nat × Nat) : String :=
  pad4 d.1.toNat ++ "-" ++ pad2 d.2.1 ++ "-" ++ pad2 d.2.2

/-- Model of `next_nightly_date` (`main.rs` lines 405-412) with the
current date's Julian day passed explicitly (the only use the function
makes of the clock): the number of elapsed 42-day release periods since
2015-05-15 is computed by truncating division, and the date
`(releases + 2) * 42 - 1` days after the epoch is formatted as
`%Y-%m-%d`. -/
def next_nightly_date (nowJd : Int) : String :=
  let releases := Int.tdiv (nowJd - firstJd) 42
  let nnDays := (releases + 2) * 42
  formatYmd (fromJulianDay (nnDays + firstJd - 1))

/-! Theorems. -/

theorem isBlank_of_all_ws (b : List Char) (h : ∀ c ∈ b, isWs c = true) :
    isBlank b = true := by
  unfold isBlank trimC trimR trimL
  rw [List.dropWhile_eq_nil_iff.mpr h]
  rfl

theorem tokensAux_ne_nil_of_acc (rest : List Char) :
    ∀ acc : List Char, acc ≠ [] → tokensAux rest acc ≠ [] := by
  induction rest with
  | nil =>
    intro acc h
    simp [tokensAux, h]
  | cons c rs ih =>
    intro acc h
    unfold tokensAux
    by_cases hw : isWs c
    · simp [hw, h]
    · simp only [hw, if_false, Bool.false_eq_true]
      exact ih (c :: acc) (by simp)

theorem tokensAux_ne_nil_of_mem (b : List Char) (c0 : Char) (hc : c0 ∈ b)
    (hw : isWs c0 = false) : ∀ acc : List Char, tokensAux b acc ≠ [] := by
  induction b with
  | nil => cases hc
  | cons c rs ih =>
    intro acc
    unfold tokensAux
    by_cases hwc : isWs c
    · have hmem : c0 ∈ rs := by
        rcases List.mem_cons.mp hc with h | h
        · rw [h] at hw; rw [hw] at hwc; cases hwc
        · exact h
      by_cases ha : acc.isEmpty
      · simp only [hwc, if_true, ha]
        exact ih hmem []
      · simp [hwc, ha]
    · simp only [hwc, if_false, Bool.false_eq_true]
      exact tokensAux_ne_nil_of_acc rs (c :: acc) (by simp)

theorem tokens_ne_nil (b : List Char) (h : isBlank b = false) : tokens b ≠ [] := by
  have hex : ∃ c ∈ b, isWs c = false := by
    by_contra hall
    push_neg at hall
    have : ∀ c ∈ b, isWs c = true := by
      intro c hc
      have := hall c hc
      revert this
      cases isWs c <;> simp
    rw [isBlank_of_all_ws b this] at h
    cases h
  obtain ⟨c0, hc0, hw0⟩ := hex
  exact tokensAux_ne_nil_of_mem b c0 hc0 hw0 []

theorem head?_eq_headD {α : Type} (l : List α) (d : α) (h : l ≠ []) :
    l.head? = some (l.headD d) := by
  cases l with
  | nil => cases h rfl
  | cons a t => rfl

theorem c6_helper_find_prs (changelog log : String)
    (commits : List (Nat × String × String))
    (h : findPrsExtract log = Except.ok commits) :
    find_prs changelog log =
      Except.ok (dedupPartition changelog.toList commits).2 := by
  unfold find_prs
  rw [h]
  rfl

/-- C6: for every changelog text and extracted record list, the
deduplication step of `find_prs` puts each record whose `[#N]` marker
occurs in the changelog into the skipped (`dupe`) set and not into the
returned `new` set, puts each record whose marker is absent into `new`
and not into `dupe`, and every record lands in one of the two sets;
moreover `find_prs` returns exactly the `new` set when extraction
succeeds. -/
theorem c6_dedup_partition (changelog : String)
    (commits : List (Nat × String × String)) :
    (∀ r ∈ commits,
      (listContains (marker r.1).toList changelog.toList = true →
        r ∈ (dedupPartition changelog.toList commits).1 ∧
        r ∉ (dedupPartition changelog.toList commits).2) ∧
      (listContains (marker r.1).toList changelog.toList = false →
        r ∈ (dedupPartition changelog.toList commits).2 ∧
        r ∉ (dedupPartition changelog.toList commits).1)) ∧
    (∀ r, r ∈ commits ↔
      (r ∈ (dedupPartition changelog.toList commits).1 ∨
       r ∈ (dedupPartition changelog.toList commits).2)) ∧
    (∀ log : String, findPrsExtract log = Except.ok commits →
      find_prs changelog log =
        Except.ok (dedupPartition changelog.toList commits).2) := by
  refine ⟨?_, ?_, fun log h => c6_helper_find_prs changelog log commits h⟩
  · intro r hr
    constructor
    · intro hc
      unfold dedupPartition
      rw [List.partition_eq_filter_filter]
      constructor
      · exact List.mem_filter.mpr ⟨hr, hc⟩
      · intro hmem
        have := (List.mem_filter.mp hmem).2
        simp only [Function.comp] at this
        rw [hc] at this
        cases this
    · intro hc
      unfold dedupPartition
      rw [List.partition_eq_filter_filter]
      constructor
      · refine List.mem_filter.mpr ⟨hr, ?_⟩
        simp only [Function.comp]
        rw [hc]
        rfl
      · intro hmem
        have := (List.mem_filter.mp hmem).2
        rw [hc] at this
        cases this
  · intro r
    unfold dedupPartition
    rw [List.partition_eq_filter_filter]
    constructor
    · intro hr
      by_cases hc : listContains (marker r.1).toList changelog.toList
      · exact Or.inl (List.mem_filter.mpr ⟨hr, hc⟩)
      · refine Or.inr (List.mem_filter.mpr ⟨hr, ?_⟩)
        simp only [Function.comp]
        simp only [Bool.not_eq_true] at hc
        rw [hc]
        rfl
    · intro hor
      rcases hor with hm | hm
      · exact (List.mem_filter.mp hm).1
      · exact (List.mem_filter.mp hm).1

theorem c6_witness :
    let cl := "existing changelog with [#42] ref"
    let commits : List (Nat × String × String) :=
      [(42, prUrl 42, "a"), (43, prUrl 43, "b")]
    (listContains (marker 42).toList cl.toList = true →
      (42, prUrl 42, "a") ∈ (dedupPartition cl.toList commits).1 ∧
      (42, prUrl 42, "a") ∉ (dedupPartition cl.toList commits).2) ∧
    (listContains (marker 42).toList cl.toList = false →
      (42, prUrl 42, "a") ∈ (dedupPartition cl.toList commits).2 ∧
      (42, prUrl 42, "a") ∉ (dedupPartition cl.toList commits).1) :=
  (c6_dedup_partition "existing changelog with [#42] ref"
    [(42, prUrl 42, "a"), (43, prUrl 43, "b")]).1 (42, prUrl 42, "a") (by simp)

/-- C7: when the milestone create call answers with the 422 conflict, the
fallback listing lookup resolves to the number of an existing milestone
carrying exactly the requested title; when no listing entry carries the
title, the operation fails with an error naming the version. -/
theorem c7_milestone_fallback (version : String) (listing : List (String × Int)) :
    ((∃ p ∈ listing, p.1 = version) →
      ∃ n, get_milestone_num version (CreateOut.status 422) listing = Except.ok n ∧
        (version, n) ∈ listing) ∧
    ((∀ p ∈ listing, p.1 ≠ version) →
      get_milestone_num version (CreateOut.status 422) listing =
        Except.error ("could not find " ++ version)) := by
  constructor
  · rintro ⟨p, hp, ht⟩
    have hs : (listing.find? (fun m => m.1 == version)).isSome :=
      List.find?_isSome.mpr ⟨p, hp, by simp [ht]⟩
    obtain ⟨q, hq⟩ := Option.isSome_iff_exists.mp hs
    have h1 : q.1 = version := by
      have := List.find?_some hq
      simpa using this
    have h2 : q ∈ listing := List.mem_of_find?_eq_some hq
    refine ⟨q.2, ?_, ?_⟩
    · simp [get_milestone_num, hq]
    · have hqe : (version, q.2) = q := by
        cases q
        simp_all
      rw [hqe]
      exact h2
  · intro hnone
    have hn : listing.find? (fun m => m.1 == version) = none :=
      List.find?_eq_none.mpr (fun x hx => by simp [hnone x hx])
    simp [get_milestone_num, hn]

theorem c7_witness :
    (∃ n, get_milestone_num "1.60.0" (CreateOut.status 422)
        [("1.59.0", 59), ("1.60.0", 60)] = Except.ok n ∧
      ("1.60.0", n) ∈ [("1.59.0", 59), ("1.60.0", 60)]) ∧
    get_milestone_num "1.61.0" (CreateOut.status 422) [("1.59.0", 59)] =
      Except.error ("could not find " ++ "1.61.0") :=
  ⟨(c7_milestone_fallback "1.60.0" [("1.59.0", 59), ("1.60.0", 60)]).1
      ⟨("1.60.0", 60), by simp, rfl⟩,
    (c7_milestone_fallback "1.61.0" [("1.59.0", 59)]).2
      (by intro p hp; simp at hp; subst hp; decide)⟩

/-- C8 counterexample: `run_success` maps exit status 1 to `Ok(false)`,
not to an error, so a non-zero exit status is not always fatal. -/
theorem c8_counterexample :
    run_success "git" ["push"] (ProcOut.exited (some 1)) = Except.ok false ∧
    ∀ m, run_success "git" ["push"] (ProcOut.exited (some 1)) ≠ Except.error m := by
  constructor
  · rfl
  · intro m h
    rw [show run_success "git" ["push"] (ProcOut.exited (some 1)) = Except.ok false
      from rfl] at h
    cases h

/-- C8 amended: a spawn failure is fatal and reported with the program
name; an exit status other than 0 and 1 is fatal for `run_success` and
reported with the program name and arguments, while exit status 1 yields
a non-fatal `false`; for `run_stdout` every exit status other than 0 is
fatal and reported with the program name and arguments. -/
theorem c8_fatal_reporting (prog : String) (args : List String)
    (code : Option Int) (e out : String) :
    (code ≠ some 0 → code ≠ some 1 →
      ∃ m, run_success prog args (ProcOut.exited code) = Except.error m ∧
        (∃ x y, m = x ++ prog ++ y) ∧
        (∃ u v, m = u ++ display_args args ++ v)) ∧
    run_success prog args (ProcOut.exited (some 1)) = Except.ok false ∧
    (∃ m, run_success prog args (ProcOut.spawnFail e) = Except.error m ∧
      ∃ x y, m = x ++ prog ++ y) ∧
    (code ≠ some 0 →
      ∃ m, run_stdout prog args (ProcOut.exited code) out = Except.error m ∧
        (∃ x y, m = x ++ prog ++ y) ∧
        (∃ u v, m = u ++ display_args args ++ v)) := by
  refine ⟨?_, ?_, ?_, ?_⟩
  · intro h0 h1
    refine ⟨"failed to run `" ++ prog ++ " " ++ display_args args ++
        "`: exit status " ++ codeRepr code, ?_, ?_, ?_⟩
    · simp only [run_success]
      rw [if_pos ⟨h0, h1⟩]
    · exact ⟨"failed to run `",
        " " ++ display_args args ++ "`: exit status " ++ codeRepr code,
        by simp [String.append_assoc]⟩
    · exact ⟨"failed to run `" ++ prog ++ " ",
        "`: exit status " ++ codeRepr code, by simp [String.append_assoc]⟩
  · simp only [run_success]
    rw [if_neg (by simp)]
    rfl
  · exact ⟨"failed to spawn `" ++ prog ++ "`: " ++ e, rfl,
      "failed to spawn `", "`: " ++ e, by simp [String.append_assoc]⟩
  · intro h0
    have hb : (code == some 0) = false := by
      cases hc : code == some 0
      · rfl
      · exact absurd (by simpa using hc) h0
    refine ⟨"failed to run `" ++ prog ++ " " ++ display_args args ++
        "`: exit status " ++ codeRepr code, ?_, ?_, ?_⟩
    · simp only [run_stdout, hb]
      rw [if_neg Bool.false_ne_true]
    · exact ⟨"failed to run `",
        " " ++ display_args args ++ "`: exit status " ++ codeRepr code,
        by simp [String.append_assoc]⟩
    · exact ⟨"failed to run `" ++ prog ++ " ",
        "`: exit status " ++ codeRepr code, by simp [String.append_assoc]⟩

theorem prefixDigits_nil (pre : List Char) (h : pre ≠ []) :
    prefixDigits pre [] = none := by
  unfold prefixDigits
  simp only [List.take_nil]
  rw [if_neg (fun hh => h hh.symm)]

theorem branch1At_of_auto (cs ds : List Char)
    (h : prefixDigits autoPre cs = some ds) : branch1At cs = some ds := by
  unfold branch1At
  rw [h]

theorem branch1At_none_auto (cs : List Char) (h : branch1At cs = none) :
    prefixDigits autoPre cs = none := by
  unfold branch1At at h
  cases hp : prefixDigits autoPre cs with
  | none => rfl
  | some ds =>
    simp only [hp] at h
    exact h

theorem findMerge_auto_of_pre (cs ds : List Char)
    (h : prefixDigits autoPre cs = some ds) :
    findMerge cs = some (MergeCap.auto ds) := by
  cases cs with
  | nil => rw [prefixDigits_nil autoPre (by decide)] at h; cases h
  | cons c rest =>
    simp only [findMerge]
    rw [branch1At_of_auto _ _ h]

theorem findAuto_of_pre (cs ds : List Char)
    (h : prefixDigits autoPre cs = some ds) : findAuto cs = some ds := by
  cases cs with
  | nil => rw [prefixDigits_nil autoPre (by decide)] at h; cases h
  | cons c rest =>
    simp only [findAuto]
    rw [h]

theorem findMerge_none_inv (c : Char) (rest : List Char)
    (h : findMerge (c :: rest) = none) :
    branch1At (c :: rest) = none ∧ branch2At (c :: rest) = none ∧
      findMerge rest = none := by
  cases h1 : branch1At (c :: rest) with
  | some ds =>
    simp only [findMerge, h1] at h
    exact Option.noConfusion h
  | none =>
    cases h2 : branch2At (c :: rest) with
    | some ds =>
      simp only [findMerge, h1, h2] at h
      exact Option.noConfusion h
    | none => exact ⟨rfl, rfl, by simpa only [findMerge, h1, h2] using h⟩

theorem findAuto_none_of_findMerge_none (cs : List Char)
    (h : findMerge cs = none) : findAuto cs = none := by
  induction cs with
  | nil => rfl
  | cons c rest ih =>
    obtain ⟨h1, h2, h3⟩ := findMerge_none_inv c rest h
    have hp : prefixDigits autoPre (c :: rest) = none := branch1At_none_auto _ h1
    simp only [findAuto, hp]
    exact ih h3

theorem parseBlock_auto (b f ds t : List Char)
    (ht : (tokens b).head? = some t)
    (hf : (messageLines b).head? = some f)
    (hm : findMerge f = some (MergeCap.auto ds))
    (hn : digitsToNat ds < 2 ^ 32) :
    parseBlock b = BlockOut.ok (digitsToNat ds, prUrl (digitsToNat ds),
      String.mk (((messageLines b).drop 1).headD [])) := by
  simp only [parseBlock, ht, hf, hm]
  rw [if_pos hn]

theorem findPrsBlock_auto (b f ds t : List Char)
    (ht : (tokens b).head? = some t)
    (hf : (messageLines b).head? = some f)
    (hm : findAuto f = some ds)
    (hn : digitsToNat ds < 2 ^ 32) :
    findPrsBlock b = Except.ok (digitsToNat ds, prUrl (digitsToNat ds),
      String.mk (((messageLines b).drop 1).headD [])) := by
  simp only [findPrsBlock, ht, hf, hm]
  rw [if_pos hn]

/-- C3: a commit block whose first message line matches neither merge
convention is reported with the unmatched line and the commit hash: the
shared parser's per-block logic produces the skip diagnostic carrying
both (the `eprintln!` at `lib.rs` lines 97-102), and `find_prs`'s
per-block logic produces the hard error carrying both (`main.rs` lines
358-364). -/
theorem c3_unmatched_reported (b f t : List Char)
    (ht : (tokens b).head? = some t)
    (hf : (messageLines b).head? = some f)
    (hm : findMerge f = none) :
    parseBlock b = BlockOut.skip f t ∧
    findPrsBlock b = Except.error (ParseFail.unmatched f t) := by
  constructor
  · simp only [parseBlock, ht, hf, hm]
  · simp only [findPrsBlock, ht, hf, findAuto_none_of_findMerge_none f hm]

theorem c3_witness :
    parseBlock (String.toList "abc\n    update some stuff\n") =
      BlockOut.skip (String.toList "update some stuff") (String.toList "abc") ∧
    findPrsBlock (String.toList "abc\n    update some stuff\n") =
      Except.error (ParseFail.unmatched (String.toList "update some stuff")
        (String.toList "abc")) :=
  c3_unmatched_reported (String.toList "abc\n    update some stuff\n")
    (String.toList "update some stuff") (String.toList "abc")
    (by decide) (by decide) (by decide)

theorem commitsGo_error_of_mem (bs : List (List Char)) (b : List Char)
    (p : ParseFail) (hb : b ∈ bs) (hp : parseBlock b = BlockOut.panic p) :
    ∃ e, commitsGo bs = Except.error e := by
  induction bs with
  | nil => cases hb
  | cons x xs ih =>
    rcases List.mem_cons.mp hb with h | h
    · subst h
      exact ⟨p, by simp only [commitsGo, hp]⟩
    · cases hx : parseBlock x with
      | ok r =>
        obtain ⟨e, he⟩ := ih h
        exact ⟨e, by simp only [commitsGo, hx, he]; rfl⟩
      | skip f hsh =>
        obtain ⟨e, he⟩ := ih h
        exact ⟨e, by simp only [commitsGo, hx, he]⟩
      | panic q => exact ⟨q, by simp only [commitsGo, hx]⟩

/-- C9: a non-blank commit block with no message lines (no non-blank line
beginning with a space) makes the per-block parser fail — the
`.expect("auto")` panic carrying no first line to match — and the whole
`commits_in_log` call fail. -/
theorem c9_no_message_lines (log : String) (b : List Char)
    (hb : b ∈ keptBlocks log.toList)
    (hml : messageLines b = []) :
    parseBlock b = BlockOut.panic (ParseFail.panicNoFirst ((tokens b).headD [])) ∧
    ∃ e, commits_in_log log = Except.error e := by
  have hblank : isBlank b = false := by
    simpa using (List.mem_filter.mp hb).2
  have ht := head?_eq_headD (tokens b) [] (tokens_ne_nil b hblank)
  have hpb : parseBlock b =
      BlockOut.panic (ParseFail.panicNoFirst ((tokens b).headD [])) := by
    simp only [parseBlock, ht, hml, List.head?_nil]
  exact ⟨hpb, commitsGo_error_of_mem _ b _ hb hpb⟩

theorem c9_witness :
    parseBlock (String.toList "def\nAuthor: someone\n") =
      BlockOut.panic (ParseFail.panicNoFirst
        ((tokens (String.toList "def\nAuthor: someone\n")).headD [])) ∧
    ∃ e, commits_in_log "commit def\nAuthor: someone\n" = Except.error e :=
  c9_no_message_lines "commit def\nAuthor: someone\n"
    (String.toList "def\nAuthor: someone\n") (by decide) (by decide)

theorem branch2At_decomp (cs ds : List Char) (h : branch2At cs = some ds) :
    cs = '(' :: '#' :: (ds ++ [')']) ∧ ds ≠ [] ∧
      ∀ c ∈ ds, Char.isDigit c = true := by
  cases cs with
  | nil => cases h
  | cons c1 t1 =>
    cases t1 with
    | nil => cases h
    | cons c2 rest =>
      simp only [branch2At] at h
      by_cases hc : c1 = '(' ∧ c2 = '#'
      · rw [if_pos hc] at h
        obtain ⟨hc1, hc2⟩ := hc
        subst hc1
        subst hc2
        by_cases he : (rest.takeWhile Char.isDigit).isEmpty
        · rw [if_pos he] at h
          cases h
        · rw [if_neg he] at h
          by_cases hdr : rest.drop (rest.takeWhile Char.isDigit).length = [')']
          · rw [if_pos hdr] at h
            have hds : rest.takeWhile Char.isDigit = ds := Option.some.inj h
            have hpre := List.takeWhile_prefix (l := rest) Char.isDigit
            obtain ⟨tl, htl⟩ := hpre
            rw [hds] at htl hdr he
            have hdrop : rest.drop ds.length = tl := by
              rw [← htl]
              exact List.drop_left ds tl
            have htl2 : tl = [')'] := by rw [← hdrop, hdr]
            refine ⟨?_, ?_, ?_⟩
            · rw [← htl, htl2]
            · intro hnil
              rw [hnil] at he
              exact he rfl
            · intro c hcmem
              rw [← hds] at hcmem
              exact List.mem_takeWhile_imp hcmem
          · rw [if_neg hdr] at h
            cases h
      · rw [if_neg hc] at h
        cases h

theorem findMerge_tail_decomp (cs ds : List Char)
    (h : findMerge cs = some (MergeCap.tail ds)) :
    ∃ g, cs = g ++ '(' :: '#' :: (ds ++ [')']) ∧ ds ≠ [] ∧
      ∀ c ∈ ds, Char.isDigit c = true := by
  induction cs with
  | nil => cases h
  | cons c rest ih =>
    cases h1 : branch1At (c :: rest) with
    | some ds2 =>
      simp only [findMerge, h1] at h
      exact MergeCap.noConfusion (Option.some.inj h)
    | none =>
      cases h2 : branch2At (c :: rest) with
      | some ds2 =>
        have hds : ds2 = ds := by
          simp only [findMerge, h1, h2] at h
          simpa using h
        subst hds
        obtain ⟨hcs, hne, hdig⟩ := branch2At_decomp _ _ h2
        exact ⟨[], by simpa using hcs, hne, hdig⟩
      | none =>
        have h3 : findMerge rest = some (MergeCap.tail ds) := by
          simpa only [findMerge, h1, h2] using h
        obtain ⟨g, hg, hne, hdig⟩ := ih h3
        exact ⟨c :: g, by simp [hg], hne, hdig⟩

/-- C5: for a block whose first message line matches the trailing
`(#digits)` convention (and not the `#`-number convention), the line
decomposes as a prefix followed by exactly `(#`, the digits and `)`, and
the produced record carries the captured number, the derived URL and the
prefix right-trimmed as its description. -/
theorem c5_tail_descr (b f ds t : List Char)
    (ht : (tokens b).head? = some t)
    (hf : (messageLines b).head? = some f)
    (hm : findMerge f = some (MergeCap.tail ds))
    (hn : digitsToNat ds < 2 ^ 32) :
    ∃ g, f = g ++ '(' :: '#' :: (ds ++ [')']) ∧
      parseBlock b = BlockOut.ok (digitsToNat ds, prUrl (digitsToNat ds),
        String.mk (trimR g)) := by
  obtain ⟨g, hg, hne, hdig⟩ := findMerge_tail_decomp f ds hm
  refine ⟨g, hg, ?_⟩
  have hlen : f.length - (ds.length + 3) = g.length := by
    rw [hg]
    simp [List.length_append]
  have htake : f.take (f.length - (ds.length + 3)) = g := by
    rw [hlen, hg]
    exact List.take_left g _
  simp only [parseBlock, ht, hf, hm]
  rw [if_pos hn, htake]

theorem c5_witness :
    ∃ g, String.toList "Fix the thing (#99)" =
        g ++ '(' :: '#' :: (String.toList "99" ++ [')']) ∧
      parseBlock (String.toList "abc\n    Fix the thing (#99)\n") =
        BlockOut.ok (digitsToNat (String.toList "99"),
          prUrl (digitsToNat (String.toList "99")), String.mk (trimR g)) :=
  c5_tail_descr (String.toList "abc\n    Fix the thing (#99)\n")
    (String.toList "Fix the thing (#99)") (String.toList "99")
    (String.toList "abc") (by decide) (by decide) (by decide) (by decide)

theorem commitsGo_auto (bs : List (List Char))
    (hblank : ∀ b ∈ bs, isBlank b = false)
    (H : ∀ b ∈ bs, ∃ f ds, (messageLines b).head? = some f ∧
      findMerge f = some (MergeCap.auto ds) ∧ digitsToNat ds < 2 ^ 32) :
    ∃ recs, commitsGo bs = Except.ok recs ∧
      List.Forall₂ (fun (b : List Char) (r : Nat × String × String) =>
        ∃ f ds, (messageLines b).head? = some f ∧
          findMerge f = some (MergeCap.auto ds) ∧
          r.1 = digitsToNat ds ∧ r.2.1 = prUrl (digitsToNat ds)) bs recs := by
  induction bs with
  | nil => exact ⟨[], rfl, List.Forall₂.nil⟩
  | cons b bs ih =>
    obtain ⟨f, ds, hf, hm, hn⟩ := H b (List.mem_cons_self b bs)
    have hb : isBlank b = false := hblank b (List.mem_cons_self b bs)
    have ht : (tokens b).head? = some ((tokens b).headD []) :=
      head?_eq_headD _ _ (tokens_ne_nil b hb)
    obtain ⟨recs, hgo, hfa⟩ := ih (fun x hx => hblank x (List.mem_cons_of_mem b hx))
      (fun x hx => H x (List.mem_cons_of_mem b hx))
    refine ⟨(digitsToNat ds, prUrl (digitsToNat ds),
      String.mk (((messageLines b).drop 1).headD [])) :: recs, ?_, ?_⟩
    · simp only [commitsGo, parseBlock_auto b f ds _ ht hf hm hn, hgo]
      rfl
    · exact List.Forall₂.cons ⟨f, ds, hf, hm, rfl, rfl⟩ hfa

/-- C1: for commit-log text in which every kept commit block's first
message line matches the `#`-number branch of the merge pattern (the
`Auto merge of #N` / `Merge pull request #N` convention) with a digit
capture fitting `u32`, `commits_in_log` succeeds with exactly one record
per block, in block order, whose number is the captured digit run's value
and whose URL is the fixed base followed by that number; the URL is pure
string formatting with no network access. -/
theorem c1_auto_merge_records (log : String)
    (H : ∀ b ∈ keptBlocks log.toList, ∃ f ds, (messageLines b).head? = some f ∧
      findMerge f = some (MergeCap.auto ds) ∧ digitsToNat ds < 2 ^ 32) :
    ∃ recs, commits_in_log log = Except.ok recs ∧
      List.Forall₂ (fun (b : List Char) (r : Nat × String × String) =>
        ∃ f ds, (messageLines b).head? = some f ∧
          findMerge f = some (MergeCap.auto ds) ∧
          r.1 = digitsToNat ds ∧ r.2.1 = prUrl (digitsToNat ds))
        (keptBlocks log.toList) recs := by
  apply commitsGo_auto
  · intro b hb
    simpa using (List.mem_filter.mp hb).2
  · exact H

theorem c1_witness :
    ∃ recs, commits_in_log
        "commit abc\n    Auto merge of #123 - someone:feat, r=reviewer\n    Add new flag\n" =
        Except.ok recs ∧
      List.Forall₂ (fun (b : List Char) (r : Nat × String × String) =>
        ∃ f ds, (messageLines b).head? = some f ∧
          findMerge f = some (MergeCap.auto ds) ∧
          r.1 = digitsToNat ds ∧ r.2.1 = prUrl (digitsToNat ds))
        (keptBlocks (String.toList
          "commit abc\n    Auto merge of #123 - someone:feat, r=reviewer\n    Add new flag\n"))
        recs :=
  c1_auto_merge_records
    "commit abc\n    Auto merge of #123 - someone:feat, r=reviewer\n    Add new flag\n"
    (by
      intro b hb
      have he : keptBlocks (String.toList
          "commit abc\n    Auto merge of #123 - someone:feat, r=reviewer\n    Add new flag\n") =
          [String.toList
            "abc\n    Auto merge of #123 - someone:feat, r=reviewer\n    Add new flag\n"] := by
        decide
      rw [he, List.mem_singleton] at hb
      subst hb
      exact ⟨String.toList "Auto merge of #123 - someone:feat, r=reviewer",
        String.toList "123", by decide, by decide, by decide⟩)

/-- C2 counterexample: on a log whose single block uses the
`Merge pull request #N` convention, the shared `commits_in_log` returns a
record while `find_prs`'s extraction fails, so the two tools do not
extract pull requests via the same logic. -/
theorem c2_counterexample :
    commits_in_log "commit abc\n    Merge pull request #1 from foo\n" =
      Except.ok [(1, prUrl 1, "")] ∧
    findPrsExtract "commit abc\n    Merge pull request #1 from foo\n" =
      Except.error (ParseFail.unmatched
        (String.toList "Merge pull request #1 from foo")
        (String.toList "abc")) := by
  constructor
  · rfl
  · rfl

theorem block_agree_auto (b f ds t : List Char)
    (ht : (tokens b).head? = some t)
    (hf : (messageLines b).head? = some f)
    (hm : prefixDigits autoPre f = some ds)
    (hn : digitsToNat ds < 2 ^ 32) :
    parseBlock b = BlockOut.ok (digitsToNat ds, prUrl (digitsToNat ds),
      String.mk (((messageLines b).drop 1).headD [])) ∧
    findPrsBlock b = Except.ok (digitsToNat ds, prUrl (digitsToNat ds),
      String.mk (((messageLines b).drop 1).headD [])) :=
  ⟨parseBlock_auto b f ds t ht hf (findMerge_auto_of_pre f ds hm) hn,
   findPrsBlock_auto b f ds t ht hf (findAuto_of_pre f ds hm) hn⟩

theorem go_agree_auto (bs : List (List Char))
    (hblank : ∀ b ∈ bs, isBlank b = false)
    (H : ∀ b ∈ bs, ∃ f ds, (messageLines b).head? = some f ∧
      prefixDigits autoPre f = some ds ∧ digitsToNat ds < 2 ^ 32) :
    findPrsGo bs = commitsGo bs := by
  induction bs with
  | nil => rfl
  | cons b bs ih =>
    obtain ⟨f, ds, hf, hm, hn⟩ := H b (List.mem_cons_self b bs)
    have hb : isBlank b = false := hblank b (List.mem_cons_self b bs)
    have ht : (tokens b).head? = some ((tokens b).headD []) :=
      head?_eq_headD _ _ (tokens_ne_nil b hb)
    obtain ⟨hpb, hfb⟩ := block_agree_auto b f ds _ ht hf hm hn
    simp only [findPrsGo, commitsGo, hpb, hfb]
    rw [ih (fun x hx => hblank x (List.mem_cons_of_mem b hx))
      (fun x hx => H x (List.mem_cons_of_mem b hx))]

/-- C2 amended: on logs in which every kept block's first message line
starts with `Auto merge of #` followed by a digit run fitting `u32`, the
extraction step of `find_prs` (before deduplication) produces exactly the
result of the shared `commits_in_log`; in general the two differ, because
`find_prs` accepts only the `Auto merge of` convention. -/
theorem c2_find_prs_agrees_on_auto (log : String)
    (H : ∀ b ∈ keptBlocks log.toList, ∃ f ds, (messageLines b).head? = some f ∧
      prefixDigits autoPre f = some ds ∧ digitsToNat ds < 2 ^ 32) :
    findPrsExtract log = commits_in_log log := by
  apply go_agree_auto
  · intro b hb
    simpa using (List.mem_filter.mp hb).2
  · exact H

theorem c2_witness :
    findPrsExtract
        "commit abc\n    Auto merge of #11 - a:b\n    First\ncommit cde\n    Auto merge of #12 - c:d\n    Second\n" =
      commits_in_log
        "commit abc\n    Auto merge of #11 - a:b\n    First\ncommit cde\n    Auto merge of #12 - c:d\n    Second\n" :=
  c2_find_prs_agrees_on_auto
    "commit abc\n    Auto merge of #11 - a:b\n    First\ncommit cde\n    Auto merge of #12 - c:d\n    Second\n"
    (by
      intro b hb
      have he : keptBlocks (String.toList
          "commit abc\n    Auto merge of #11 - a:b\n    First\ncommit cde\n    Auto merge of #12 - c:d\n    Second\n") =
          [String.toList "abc\n    Auto merge of #11 - a:b\n    First",
           String.toList "cde\n    Auto merge of #12 - c:d\n    Second\n"] := by
        decide
      rw [he] at hb
      rcases List.mem_cons.mp hb with h | h
      · subst h
        exact ⟨String.toList "Auto merge of #11 - a:b", String.toList "11",
          by decide, by decide, by decide⟩
      · rw [List.mem_singleton] at h
        subst h
        exact ⟨String.toList "Auto merge of #12 - c:d", String.toList "12",
          by decide, by decide, by decide⟩)

theorem c8_witness :
    (∃ m, run_success "git" ["push", "origin"] (ProcOut.exited (some 2)) =
        Except.error m ∧
      (∃ x y, m = x ++ "git" ++ y) ∧
      (∃ u v, m = u ++ display_args ["push", "origin"] ++ v)) ∧
    run_success "git" ["push", "origin"] (ProcOut.exited (some 1)) =
      Except.ok false :=
  ⟨(c8_fatal_reporting "git" ["push", "origin"] (some 2) "x" "y").1
      (by decide) (by decide),
    (c8_fatal_reporting "git" ["push", "origin"] (some 2) "x" "y").2.1⟩

theorem findSub_single (q : Char) (xs ys : List Char)
    (h : ∀ c ∈ xs, c ≠ q) : findSub [q] (xs ++ q :: ys) = some xs.length := by
  induction xs with
  | nil =>
    simp only [List.nil_append, findSub]
    have hc : List.take [q].length (q :: ys) = [q] := rfl
    rw [if_pos hc]
    rfl
  | cons x xs ih =>
    have hx : x ≠ q := h x (List.mem_cons_self x xs)
    simp only [List.cons_append, findSub, List.append_eq]
    rw [if_neg (fun hh => hx (by simpa using hh))]
    rw [ih (fun c hc => h c (List.mem_cons_of_mem x hc))]
    rfl

/-- C4: on a manifest whose first `version = "` marker delimits a field
parsing as `X.Y.Z`: if `X = 0` the bump rewrites exactly that field to
`0.(Y+1).0`, leaves all surrounding text untouched and returns the next
version; if `X` is non-zero the bump fails with the major-version
assertion. -/
theorem c4_bump_version (a v b : String) (X Y Z : Nat)
    (h1 : findSub versionMarker (a ++ "version = \"" ++ v ++ "\"" ++ b).toList =
      some a.length)
    (h2 : ∀ c ∈ v.toList, c ≠ '"')
    (h3 : parseSemver v.toList = some (X, Y, Z)) :
    (X = 0 → bump_version_toml (a ++ "version = \"" ++ v ++ "\"" ++ b) =
      Except.ok (a ++ "version = \"" ++ ("0." ++ toString (Y + 1) ++ ".0") ++ "\"" ++ b,
        "0." ++ toString (Y + 1) ++ ".0")) ∧
    (X ≠ 0 → bump_version_toml (a ++ "version = \"" ++ v ++ "\"" ++ b) =
      Except.error (BumpFail.panicMajor X)) := by
  have hdata : (a ++ "version = \"" ++ v ++ "\"" ++ b).toList =
      (a.toList ++ versionMarker) ++ (v.toList ++ '"' :: b.toList) := by
    simp only [versionMarker, String.toList, String.data_append, List.append_assoc]
    rfl
  have hlen1 : (a.toList ++ versionMarker).length = a.length + 11 := by
    rw [List.length_append]
    rfl
  have hdrop1 : (a ++ "version = \"" ++ v ++ "\"" ++ b).toList.drop (a.length + 11) =
      v.toList ++ '"' :: b.toList := by
    rw [hdata]
    exact List.drop_left' hlen1
  have htake1 : (a ++ "version = \"" ++ v ++ "\"" ++ b).toList.take (a.length + 11) =
      a.toList ++ versionMarker := by
    rw [hdata]
    exact List.take_left' hlen1
  have hdrop2 : (a ++ "version = \"" ++ v ++ "\"" ++ b).toList.drop
      (a.length + 11 + v.toList.length) = '"' :: b.toList := by
    rw [hdata, ← List.append_assoc]
    refine List.drop_left' ?_
    rw [List.length_append, hlen1]
  have hfind2 : findSub ['"'] (v.toList ++ '"' :: b.toList) = some v.toList.length :=
    findSub_single '"' v.toList b.toList h2
  have htake2 : (v.toList ++ '"' :: b.toList).take v.toList.length = v.toList :=
    List.take_left v.toList ('"' :: b.toList)
  constructor
  · intro hx
    subst hx
    simp only [bump_version_toml, h1, hdrop1, hfind2, htake2, h3]
    rw [htake1, hdrop2]
    have hout : (a.toList ++ versionMarker) ++
        ("0." ++ toString (Y + 1) ++ ".0").toList ++ '"' :: b.toList =
        (a ++ "version = \"" ++ ("0." ++ toString (Y + 1) ++ ".0") ++ "\"" ++ b).toList := by
      simp only [versionMarker, String.toList, String.data_append, List.append_assoc]
      rfl
    rw [hout]
    rw [if_pos trivial]
    rfl
  · intro hx
    simp only [bump_version_toml, h1, hdrop1, hfind2, htake2, h3]
    rw [if_neg hx]

theorem c4_witness :
    bump_version_toml ("[package]\nname = \"cargo\"\n" ++ "version = \"" ++ "0.71.0" ++
        "\"" ++ "\nedition = \"2018\"\n") =
      Except.ok ("[package]\nname = \"cargo\"\n" ++ "version = \"" ++
        ("0." ++ toString (71 + 1) ++ ".0") ++ "\"" ++ "\nedition = \"2018\"\n",
        "0." ++ toString (71 + 1) ++ ".0") ∧
    bump_version_toml ("" ++ "version = \"" ++ "1.2.3" ++ "\"" ++ "\n") =
      Except.error (BumpFail.panicMajor 1) :=
  ⟨(c4_bump_version "[package]\nname = \"cargo\"\n" "0.71.0" "\nedition = \"2018\"\n"
      0 71 0 (by decide) (by decide) (by decide)).1 rfl,
    (c4_bump_version "" "1.2.3" "\n" 1 2 3 (by decide) (by decide) (by decide)).2
      (by decide)⟩

theorem fromJulianDay_epoch : fromJulianDay firstJd = (2015, 5, 15) := by decide

/-- C10: with the current date's Julian day `D`, `next_nightly_date`
formats (as `%Y-%m-%d`) the date lying
`(tdiv (D - epoch) 42 + 2) * 42 - 1` days after the 2015-05-15 epoch
(truncating and flooring division agree here since `D` is on or after the
epoch), and that date lies strictly after `D`, between 42 and 83 days
(inclusive) ahead. -/
theorem c10_next_nightly (nowJd : Int) (h : firstJd ≤ nowJd) :
    next_nightly_date nowJd = formatYmd (fromJulianDay
      ((Int.tdiv (nowJd - firstJd) 42 + 2) * 42 + firstJd - 1)) ∧
    nowJd < (Int.tdiv (nowJd - firstJd) 42 + 2) * 42 + firstJd - 1 ∧
    42 ≤ ((Int.tdiv (nowJd - firstJd) 42 + 2) * 42 + firstJd - 1) - nowJd ∧
    ((Int.tdiv (nowJd - firstJd) 42 + 2) * 42 + firstJd - 1) - nowJd ≤ 83 := by
  have hd : (0 : Int) ≤ nowJd - firstJd := by omega
  have hn : ((nowJd - firstJd).toNat : Int) = nowJd - firstJd := Int.toNat_of_nonneg hd
  have htd := Int.ofNat_tdiv (nowJd - firstJd).toNat 42
  push_cast at htd
  rw [hn] at htd
  have hmod : (nowJd - firstJd).toNat =
      42 * ((nowJd - firstJd).toNat / 42) + (nowJd - firstJd).toNat % 42 :=
    (Nat.div_add_mod _ _).symm
  have hrlt : (nowJd - firstJd).toNat % 42 < 42 := Nat.mod_lt _ (by norm_num)
  refine ⟨rfl, ?_, ?_, ?_⟩ <;>
  · rw [← htd]
    omega

theorem c10_witness :
    next_nightly_date 2461326 = formatYmd (fromJulianDay
      ((Int.tdiv (2461326 - firstJd) 42 + 2) * 42 + firstJd - 1)) ∧
    (2461326 : Int) < (Int.tdiv (2461326 - firstJd) 42 + 2) * 42 + firstJd - 1 ∧
    42 ≤ ((Int.tdiv (2461326 - firstJd) 42 + 2) * 42 + firstJd - 1) - 2461326 ∧
    ((Int.tdiv (2461326 - firstJd) 42 + 2) * 42 + firstJd - 1) - 2461326 ≤ 83 :=
  c10_next_nightly 2461326 (by decide)

end CargoRel
